import Mathlib

/-!
Verification of the tensorforce line-search solver and experience-batching
orchestrator, shallowly embedded from
`src/tensorforce/core/optimizers/solvers/line_search.py` and
`src/tensorforce/agents/tensorforce.py`.

Tensors are modelled as lists of rationals (`List ℚ`), elementwise `fmap`
becomes `List.map` / `List.zipWith`, and the scalar parameter providers
(`self.parameter.value()` / `self.accept_ratio.value()`) are modelled as
sequences `ℕ → ℚ` indexed by the number of consultations made so far, so
that a time-varying schedule can be expressed.
-/

namespace Tensorforce

/-- Modelled from the spec: `util.epsilon` is not under `src/`; the spec
describes it as "a small positive constant guarding division by ~zero"
(the library uses `1e-6`). Only its positivity matters for the claims. -/
def epsilon : ℚ := 1 / 1000000

/-- Line-search movement mode, `self.mode`, fixed at construction
(`line_search.py` lines 57-61). -/
inductive Mode where
  | linear
  | exponential
deriving DecidableEq, Repr

/-- The mode-dependent `additional` payload threaded through the loop:
for `'linear'` a `TensorDict(base_value=…, estimated_incr=…)`
(`line_search.py` line 146), for `'exponential'` the scalar `base_value`
(line 150). The constructor records which mode built it, which is how the
source's `self.mode` branches in `step` are reflected. -/
inductive Additional where
  | linear (base_value estimated_incr : ℚ)
  | exponential (base_value : ℚ)
deriving DecidableEq, Repr

/-- The state tuple `(x, deltas, improvement, last_improvement, estimated,
additional)` threaded through the iterative loop. -/
structure SolverState where
  x : List ℚ
  deltas : List ℚ
  improvement : ℚ
  last_improvement : ℚ
  estimated : ℚ
  additional : Additional
deriving DecidableEq, Repr

/-- `LineSearch.start` (`line_search.py` lines 122-152). `parameter` is the
value returned by the single `self.parameter.value()` consultation made
inside `start` (line 141). -/
def start (m : Mode) (parameter : ℚ) (x_init : List ℚ)
    (base_value target_value estimated_improvement : ℚ) : SolverState :=
  let difference := target_value - base_value
  let improvement := difference / max estimated_improvement epsilon
  let last_improvement := improvement - 1
  let deltas := x_init.map (fun t => -t * parameter)
  let additional :=
    match m with
    | .linear => Additional.linear base_value (-estimated_improvement * parameter)
    | .exponential => Additional.exponential base_value
  { x := x_init, deltas := deltas, improvement := improvement,
    last_improvement := last_improvement, estimated := estimated_improvement,
    additional := additional }

/-- `LineSearch.step` (`line_search.py` lines 154-198). `parameter` is the
value returned by the `self.parameter.value()` consultation made inside
`step` (line 175); `fn_x` is the objective closure, called once with
`next_deltas` (line 187). The source branches on `self.mode`; the
`additional` payload built by `start` is in one-to-one correspondence with
the mode, so the branch is taken on its constructor here. -/
def step (parameter : ℚ) (fn_x : List ℚ → ℚ) (s : SolverState) : SolverState :=
  let next_x := List.zipWith (fun t delta => t + delta) s.x s.deltas
  let bde :=
    match s.additional with
    | .linear base_value estimated_incr =>
        (base_value, s.deltas, s.estimated + estimated_incr)
    | .exponential base_value =>
        (base_value, s.deltas.map (fun delta => delta * parameter),
          s.estimated * parameter)
  let target_value := fn_x bde.2.1
  let difference := target_value - bde.1
  let next_improvement := difference / max bde.2.2 epsilon
  { x := next_x, deltas := bde.2.1, improvement := next_improvement,
    last_improvement := s.improvement, estimated := bde.2.2,
    additional := s.additional }

/-- `LineSearch.next_step` (`line_search.py` lines 200-221). `accept_ratio`
is the value returned by the `self.accept_ratio.value()` consultation made
inside `next_step` (line 218). -/
def next_step (accept_ratio : ℚ) (s : SolverState) : Bool :=
  let improved := decide (s.improvement > s.last_improvement)
  let continue_ := improved && decide (s.improvement < accept_ratio)
  continue_ && decide (s.estimated > epsilon)

/-- `LineSearch.end` (`line_search.py` lines 223-249). The second component
is the list of arguments with which `fn_x` was invoked by this call (the
undo path calls it once with the negated deltas and discards the value,
lines 242-245; the accept path never calls it). -/
def end_ (fn_x : List ℚ → ℚ) (s : SolverState) : List ℚ × List (List ℚ) :=
  if s.improvement > s.last_improvement then
    (List.zipWith (fun t delta => t + delta) s.x s.deltas, [])
  else
    let undo_arg := s.deltas.map (fun delta => -delta)
    let _value := fn_x undo_arg
    (s.x, [undo_arg])

/-- `n` consecutive invocations of `step` with a fixed parameter value
(the constant-provider instantiation used to state the geometric-decay
invariant). -/
def iterateStep (parameter : ℚ) (fn_x : List ℚ → ℚ) : ℕ → SolverState → SolverState
  | 0, s => s
  | n + 1, s => iterateStep parameter fn_x n (step parameter fn_x s)

/-- The `base_value` component carried by the `additional` payload
(`additional['base_value']` in linear mode, `additional` itself in
exponential mode, `line_search.py` lines 178 and 183). -/
def base_of : Additional → ℚ
  | .linear base_value _ => base_value
  | .exponential base_value => base_value

/-- Result of the bounded iteration loop: final state, next consultation
index of the parameter provider, next consultation index of the
accept-ratio provider, and number of executed `step` invocations. -/
structure LoopOut where
  state : SolverState
  pIdx : ℕ
  aIdx : ℕ
  nSteps : ℕ
deriving Repr

/-- Modelled from the spec: the `Iterative` solver base class is not under
`src/`; spec 4.1 gives its loop as
`state = start(args); while next_step(state) and iterations < max:
state = step(state); iterations += 1; return end(state)`, with at most
`max_iterations` step invocations. Provider consultation indices are
threaded: each `step` consults the parameter provider once and each
`next_step` consults the accept-ratio provider once, as in the source of
those two functions. -/
def solveLoop (pProv aProv : ℕ → ℚ) (fn_x : List ℚ → ℚ) :
    ℕ → SolverState → ℕ → ℕ → ℕ → LoopOut
  | 0, s, pIdx, aIdx, nSteps => ⟨s, pIdx, aIdx, nSteps⟩
  | fuel + 1, s, pIdx, aIdx, nSteps =>
    if next_step (aProv aIdx) s then
      solveLoop pProv aProv fn_x fuel (step (pProv pIdx) fn_x s)
        (pIdx + 1) (aIdx + 1) (nSteps + 1)
    else
      ⟨s, pIdx, aIdx + 1, nSteps⟩

/-- Full record of one `solve` call: returned point, final loop state,
total number of parameter-provider consultations, total number of
accept-ratio-provider consultations, number of `step` invocations, and the
`fn_x` invocations made by `end`. -/
structure SolveRun where
  x : List ℚ
  state : SolverState
  pConsults : ℕ
  aConsults : ℕ
  nSteps : ℕ
  endCalls : List (List ℚ)
deriving Repr

/-- Modelled from the spec: `LineSearch.solve` delegates to the `Iterative`
base (not under `src/`): `end(loop(start(...)))`. `start` makes parameter
consultation `0` (`line_search.py` line 141), so the loop starts at
parameter index `1` and accept-ratio index `0`. -/
def solveRun (m : Mode) (max_iterations : ℕ) (pProv aProv : ℕ → ℚ)
    (fn_x : List ℚ → ℚ) (x_init : List ℚ)
    (base_value target_value estimated_improvement : ℚ) : SolveRun :=
  let s0 := start m (pProv 0) x_init base_value target_value estimated_improvement
  let out := solveLoop pProv aProv fn_x max_iterations s0 1 0 0
  let r := end_ fn_x out.state
  ⟨r.1, out.state, out.pIdx, out.aIdx, out.nSteps, r.2⟩

/-- The point returned by `solve`. -/
def solve (m : Mode) (max_iterations : ℕ) (pProv aProv : ℕ → ℚ)
    (fn_x : List ℚ → ℚ) (x_init : List ℚ)
    (base_value target_value estimated_improvement : ℚ) : List ℚ :=
  (solveRun m max_iterations pProv aProv fn_x x_init base_value target_value
    estimated_improvement).x

/-! ## Experience batching (`src/tensorforce/agents/tensorforce.py`) -/

/-- The batch-splitting loop of `TensorforceAgent.experience`
(`tensorforce.py` lines 495-513), iterated structurally over the terminal
flags. `t :: rest` holds `terminal[index - 1 :]` for the current 1-based
loop variable `index`; `last` is the start of the open batch; `size` is
`self.experience_size`. A batch is the slice `[last : index]`, recorded as
the pair `(last, index)`. The source's second `if` (lines 502-504,
"Include terminal in batch if possible") extends the emitted batch by one:
`index < len(terminal)` becomes `rest ≠ []` and `terminal[index]` becomes
`rest.headD 0`. Mutating the loop variable does not affect the next
iteration of a Python `for`, so the recursion always continues at
`index + 1`. -/
def batchLoop (size : ℕ) : List ℕ → ℕ → ℕ → List (ℕ × ℕ)
  | [], _, _ => []
  | t :: rest, index, last =>
    if t = 0 ∧ index - last < size then
      batchLoop size rest (index + 1) last
    else
      let index' :=
        if rest ≠ [] ∧ t = 0 ∧ rest.headD 0 > 0 ∧ index - last < size then
          index + 1
        else
          index
      (last, index') :: batchLoop size rest (index + 1) index'

/-- The list of `[last : index]` batch slices that `experience` hands to
`model.experience`, in order (`tensorforce.py` lines 495-532): the loop
runs `index` from 1 to `len(terminal)` with `last = 0` initially. -/
def batchBoundaries (terminal : List ℕ) (size : ℕ) : List (ℕ × ℕ) :=
  batchLoop size terminal 1 0

/-- The `batchLoop` with the unreachable terminal-inclusion branch
(`tensorforce.py` lines 501-504) removed; used to show that branch is dead
code. -/
def batchLoopNG (size : ℕ) : List ℕ → ℕ → ℕ → List (ℕ × ℕ)
  | [], _, _ => []
  | t :: rest, index, last =>
    if t = 0 ∧ index - last < size then
      batchLoopNG size rest (index + 1) last
    else
      (last, index) :: batchLoopNG size rest (index + 1) index

/-- Agent counters `(timesteps, episodes, updates)`: each emitted batch is
passed to `model.experience`, whose returned counters overwrite the
agent's (`tensorforce.py` lines 526-532). The model is external, so it is
abstracted as a function from the batch slice to the new counters. -/
def finalCounters (model : ℕ × ℕ → ℕ × ℕ × ℕ) (init : ℕ × ℕ × ℕ)
    (batches : List (ℕ × ℕ)) : ℕ × ℕ × ℕ :=
  batches.foldl (fun _ b => model b) init

/-- Errors raised by `TensorforceAgent.experience` before any batch is
forwarded: the mid-episode guard (`tensorforce.py` lines 378-379) and the
length checks (lines 453-475), which raise
`TensorforceError.value(name='Agent.experience', argument=…, value=…)`. -/
inductive ExpError where
  | midEpisode
  | lengthMismatch (argument : String) (value : ℕ)
deriving DecidableEq, Repr

/-- The `argument` string of the internals length error
(`tensorforce.py` line 457). -/
def mkInternalsArg (name : String) : String := "len(internals[" ++ name ++ "])"

/-- The `argument` string of the actions length error
(`tensorforce.py` line 463). -/
def mkActionsArg (name : String) : String := "len(actions[" ++ name ++ "])"

/-- The leading-length checks of `TensorforceAgent.experience`
(`tensorforce.py` lines 453-475), in source order: each internals entry,
each actions entry, then `terminal`, then `reward`, each compared against
`num_instances` (the number of state instances inferred from the states
input); the first mismatch raises. `internals` and `actions` are given as
association lists `name ↦ leading length`. -/
def checkLengths (num_instances : ℕ) (internals actions : List (String × ℕ))
    (terminalLen rewardLen : ℕ) : Option ExpError :=
  match internals.find? (fun nv => nv.2 != num_instances) with
  | some nv => some (.lengthMismatch (mkInternalsArg nv.1) nv.2)
  | none =>
    match actions.find? (fun nv => nv.2 != num_instances) with
    | some nv => some (.lengthMismatch (mkActionsArg nv.1) nv.2)
    | none =>
      if terminalLen ≠ num_instances then
        some (.lengthMismatch "len(terminal)" terminalLen)
      else if rewardLen ≠ num_instances then
        some (.lengthMismatch "len(reward)" rewardLen)
      else
        none

/-- `TensorforceAgent.experience` (`tensorforce.py` lines 362-532):
first the mid-episode guard on the per-parallel-slot observe-buffer fill
counts `self.buffer_indices` (lines 378-379), then the length checks, then
the batch-splitting loop whose emitted slices are handed to
`model.experience`. An `Except.error` result models an exception raised
before any batch is forwarded. -/
def experience (buffer_indices : List ℕ) (num_instances : ℕ)
    (internals actions : List (String × ℕ)) (terminal : List ℕ)
    (rewardLen : ℕ) (experience_size : ℕ) : Except ExpError (List (ℕ × ℕ)) :=
  if ¬ (buffer_indices.all (fun b => b == 0)) then
    .error .midEpisode
  else
    match checkLengths num_instances internals actions terminal.length rewardLen with
    | some e => .error e
    | none => .ok (batchBoundaries terminal experience_size)

/-- An error value genuinely names an offending field: a length-mismatch
error whose argument string and reported value belong to an input whose
leading length differs from `num_instances`. -/
def offending (num_instances : ℕ) (internals actions : List (String × ℕ))
    (terminalLen rewardLen : ℕ) : ExpError → Prop
  | .midEpisode => False
  | .lengthMismatch a v =>
      (∃ nv ∈ internals, a = mkInternalsArg nv.1 ∧ v = nv.2 ∧ nv.2 ≠ num_instances) ∨
      (∃ nv ∈ actions, a = mkActionsArg nv.1 ∧ v = nv.2 ∧ nv.2 ≠ num_instances) ∨
      (a = "len(terminal)" ∧ v = terminalLen ∧ terminalLen ≠ num_instances) ∨
      (a = "len(reward)" ∧ v = rewardLen ∧ rewardLen ≠ num_instances)

/-! ## Helper lemmas -/

/-- Zipping a list with its own image reduces to a single map. -/
theorem zipWith_map_right_self {α β γ : Type} (f : α → β → γ) (g : α → β) :
    ∀ l : List α, List.zipWith f l (l.map g) = l.map (fun a => f a (g a)) := by
  intro l
  induction l with
  | nil => rfl
  | cons a l ih => simp [ih]

/-- `step` threads the `additional` payload through unchanged
(`line_search.py` line 198). -/
theorem step_additional (parameter : ℚ) (fn_x : List ℚ → ℚ) (s : SolverState) :
    (step parameter fn_x s).additional = s.additional := by
  obtain ⟨x, d, im, li, es, ad⟩ := s
  cases ad <;> rfl

/-- Every member of a list of rationals is bounded by `foldr max 0`. -/
theorem le_foldr_max : ∀ {l : List ℚ} {a : ℚ}, a ∈ l → a ≤ l.foldr max 0 := by
  intro l
  induction l with
  | nil => intro a ha; cases ha
  | cons b l ih =>
      intro a ha
      rcases List.mem_cons.mp ha with h | h
      · exact h ▸ le_max_left _ _
      · exact le_trans (ih h) (le_max_right _ _)

/-! ## Claims about the line-search state functions -/

/-- C5: `next_step` returns true iff all three conditions hold:
`improvement > last_improvement`, `improvement < accept_ratio` (strictly,
so an improvement exactly equal to the accept ratio halts iteration), and
`estimated > epsilon`. -/
theorem C5_next_step_iff (accept_ratio : ℚ) (s : SolverState) :
    (next_step accept_ratio s = true ↔
      s.improvement > s.last_improvement ∧ s.improvement < accept_ratio ∧
        s.estimated > epsilon) ∧
    (s.improvement = accept_ratio → next_step accept_ratio s = false) := by
  constructor
  · simp [next_step, and_assoc]
  · intro h
    simp [next_step, h]

/-- Witness for C5 at a concrete boundary state with
`improvement = accept_ratio`. -/
theorem C5_witness :
    next_step (1/2) ⟨[], [], 1/2, 0, 1, .exponential 0⟩ = false :=
  (C5_next_step_iff (1/2) ⟨[], [], 1/2, 0, 1, .exponential 0⟩).2 rfl

/-- C4: `end` returns `x + deltas` elementwise when
`improvement > last_improvement`; otherwise it invokes `fn_x` exactly once
with the elementwise negation of the last deltas, discards the value, and
returns `x` unchanged — and the single undo argument cancels the last
deltas exactly. -/
theorem C4_end_accept_or_undo (fn_x : List ℚ → ℚ) (s : SolverState) :
    (s.improvement > s.last_improvement →
      end_ fn_x s = (List.zipWith (fun t delta => t + delta) s.x s.deltas, [])) ∧
    (¬ s.improvement > s.last_improvement →
      end_ fn_x s = (s.x, [s.deltas.map (fun delta => -delta)]) ∧
      List.zipWith (fun delta u => delta + u) s.deltas
          (s.deltas.map (fun delta => -delta)) =
        s.deltas.map (fun _ => 0)) := by
  refine ⟨fun h => by simp [end_, h], fun h => ⟨by simp [end_, h], ?_⟩⟩
  rw [zipWith_map_right_self]
  simp

/-- Witness for C4 at a concrete rejecting state. -/
theorem C4_witness :
    end_ (fun _ => (0 : ℚ)) ⟨[1], [2], 0, 0, 1, .exponential 0⟩ =
      ([1], [[-2]]) ∧
    List.zipWith (fun delta u => delta + u) [(2 : ℚ)] [(-2 : ℚ)] = [0] := by
  have h := (C4_end_accept_or_undo (fun _ => (0 : ℚ))
    ⟨[1], [2], 0, 0, 1, .exponential 0⟩).2 (by norm_num)
  exact ⟨h.1, h.2⟩

/-- C7: in `start` and in `step` the improvement-ratio denominator is
`max(estimate, epsilon)` with `epsilon` a fixed positive constant, so the
denominator is floored at `epsilon` and never zero. -/
theorem C7_epsilon_floor (m : Mode) (parameter : ℚ) (x_init : List ℚ)
    (base_value target_value estimated_improvement : ℚ)
    (fn_x : List ℚ → ℚ) (s : SolverState) :
    (start m parameter x_init base_value target_value
        estimated_improvement).improvement =
      (target_value - base_value) / max estimated_improvement epsilon ∧
    (step parameter fn_x s).improvement =
      (fn_x ((step parameter fn_x s).deltas) - base_of s.additional) /
        max ((step parameter fn_x s).estimated) epsilon ∧
    0 < epsilon ∧
    epsilon ≤ max estimated_improvement epsilon ∧
    epsilon ≤ max ((step parameter fn_x s).estimated) epsilon := by
  refine ⟨?_, ?_, by norm_num [epsilon], le_max_right _ _, le_max_right _ _⟩
  · cases m <;> rfl
  · obtain ⟨x, d, im, li, es, ad⟩ := s
    cases ad <;> simp [step, base_of]

/-- In exponential mode, `n` iterations of `step` scale every delta by
`parameter ^ n`. -/
theorem iterateStep_deltas_exp (parameter : ℚ) (fn_x : List ℚ → ℚ) :
    ∀ (n : ℕ) (s : SolverState) (bv : ℚ),
      s.additional = .exponential bv →
      (iterateStep parameter fn_x n s).deltas =
        s.deltas.map (fun delta => delta * parameter ^ n) := by
  intro n
  induction n with
  | zero =>
      intro s bv _
      simp [iterateStep]
  | succ n ih =>
      intro s bv hadd
      have hstep : (step parameter fn_x s).additional = .exponential bv := by
        rw [step_additional]; exact hadd
      have hd : (step parameter fn_x s).deltas =
          s.deltas.map (fun delta => delta * parameter) := by
        obtain ⟨x, d, im, li, es, ad⟩ := s
        cases ad with
        | linear bv' incr => cases hadd
        | exponential bv' => simp [step]
      rw [iterateStep, ih (step parameter fn_x s) bv hstep, hd, List.map_map]
      apply List.map_congr_left
      intro a _
      simp [Function.comp, pow_succ]
      ring

/-- C6: per-invocation mode equations of `step` — in linear mode
`next_deltas = deltas` and `next_estimated = estimated + estimated_incr`,
with `estimated_incr = -estimated_improvement * parameter` fixed by
`start`; in exponential mode `next_deltas = deltas * parameter` elementwise
and `next_estimated = estimated * parameter`, so with a constant parameter
`delta_n = delta_0 * parameter ^ n`, which for `0 < parameter < 1` decays
toward zero and strictly shrinks in magnitude at each nonzero entry. -/
theorem C6_mode_equations (parameter : ℚ) (fn_x : List ℚ → ℚ) (s : SolverState) :
    (∀ bv incr, s.additional = .linear bv incr →
      (step parameter fn_x s).deltas = s.deltas ∧
      (step parameter fn_x s).estimated = s.estimated + incr) ∧
    (∀ p0 x_init b t e,
      (start .linear p0 x_init b t e).additional =
        .linear b (-e * p0)) ∧
    (∀ bv, s.additional = .exponential bv →
      (step parameter fn_x s).deltas =
        s.deltas.map (fun delta => delta * parameter) ∧
      (step parameter fn_x s).estimated = s.estimated * parameter) ∧
    (∀ bv, s.additional = .exponential bv → ∀ n,
      (iterateStep parameter fn_x n s).deltas =
        s.deltas.map (fun delta => delta * parameter ^ n)) ∧
    (0 < parameter → parameter < 1 →
      ∀ bv, s.additional = .exponential bv →
      ∀ ε : ℚ, 0 < ε → ∃ N, ∀ n, N ≤ n →
        ∀ v ∈ (iterateStep parameter fn_x n s).deltas, |v| < ε) ∧
    (∀ d : ℚ, 0 < parameter → parameter < 1 → d ≠ 0 →
      |d * parameter| < |d|) := by
  refine ⟨?_, ?_, ?_, ?_, ?_, ?_⟩
  · intro bv incr hadd
    obtain ⟨x, d, im, li, es, ad⟩ := s
    cases ad with
    | linear bv' incr' =>
        cases hadd
        exact ⟨by simp [step], by simp [step]⟩
    | exponential bv' => cases hadd
  · intro p0 x_init b t e
    rfl
  · intro bv hadd
    obtain ⟨x, d, im, li, es, ad⟩ := s
    cases ad with
    | linear bv' incr' => cases hadd
    | exponential bv' => exact ⟨by simp [step], by simp [step]⟩
  · intro bv hadd n
    exact iterateStep_deltas_exp parameter fn_x n s bv hadd
  · intro hp0 hp1 bv hadd ε hε
    set B : ℚ := (s.deltas.map (fun v => |v|)).foldr max 0 with hB
    have hB0 : 0 ≤ B := by
      rw [hB]
      induction s.deltas with
      | nil => exact le_refl 0
      | cons a l ihl => exact le_trans ihl (by simp)
    have hBpos : 0 < B + 1 := by linarith
    obtain ⟨N, hN⟩ := exists_pow_lt_of_lt_one (div_pos hε hBpos) hp1
    refine ⟨N, fun n hn v hv => ?_⟩
    rw [iterateStep_deltas_exp parameter fn_x n s bv hadd] at hv
    obtain ⟨d, hd, rfl⟩ := List.mem_map.mp hv
    have hdB : |d| ≤ B := le_foldr_max (List.mem_map_of_mem (fun v => |v|) hd)
    have hpn : (0 : ℚ) ≤ parameter ^ n := pow_nonneg hp0.le n
    have hmono : parameter ^ n ≤ parameter ^ N :=
      pow_le_pow_of_le_one hp0.le hp1.le hn
    have habs : |d * parameter ^ n| = |d| * parameter ^ n := by
      rw [abs_mul, abs_of_nonneg hpn]
    rw [habs]
    calc |d| * parameter ^ n ≤ B * parameter ^ n :=
          mul_le_mul_of_nonneg_right hdB hpn
      _ ≤ B * parameter ^ N := mul_le_mul_of_nonneg_left hmono hB0
      _ < (B + 1) * parameter ^ N := by
          have : (0 : ℚ) < parameter ^ N := pow_pos hp0 N
          nlinarith
      _ < ε := by
          have := (lt_div_iff₀ hBpos).mp hN
          linarith
  · intro d hp0 hp1 hd
    have habs : |d * parameter| = |d| * parameter := by
      rw [abs_mul, abs_of_nonneg hp0.le]
    rw [habs]
    have h0 : 0 < |d| := abs_pos.mpr hd
    nlinarith

/-- Witness for C6: the linear-mode equations at a concrete state. -/
theorem C6_witness :
    (step (1/2) (fun _ => (0 : ℚ)) ⟨[1], [2], 0, 0, 1, .linear 5 3⟩).deltas
      = [2] ∧
    (step (1/2) (fun _ => (0 : ℚ)) ⟨[1], [2], 0, 0, 1, .linear 5 3⟩).estimated
      = 1 + 3 :=
  (C6_mode_equations (1/2) (fun _ => (0 : ℚ))
    ⟨[1], [2], 0, 0, 1, .linear 5 3⟩).1 5 3 rfl

/-! ## Claims about `solve` -/

/-- Counterexample to C1 as stated: with `max_iterations = 0`,
`parameter = 1/2`, `x_init = [1]`, `base_value = 0`, `target_value = 1`,
`estimated_improvement = 1`, `solve` returns `[1/2]`, not `x_init = [1]`:
`end` takes the accept branch (`improvement > improvement - 1` always) and
returns `x_init + deltas = (1 - parameter) * x_init`. -/
theorem C1_counterexample :
    solve .linear 0 (fun _ => 1/2) (fun _ => 9/10) (fun _ => 0) [1] 0 1 1
      = [1/2] ∧
    solve .linear 0 (fun _ => 1/2) (fun _ => 9/10) (fun _ => 0) [1] 0 1 1
      ≠ [1] := by
  constructor <;>
    norm_num [solve, solveRun, solveLoop, start, step, next_step, end_, epsilon]

/-- C1 amended: with `max_iterations = 0`, `solve` performs no `step`
invocation and no `fn_x` call, and returns `end(start(...))`, which is
`x_init + deltas = x_init - parameter * x_init` elementwise (equal to
`x_init` only when the start-time parameter is zero or `x_init`
vanishes). -/
theorem C1_solve_zero_iterations (m : Mode) (pProv aProv : ℕ → ℚ)
    (fn_x : List ℚ → ℚ) (x_init : List ℚ)
    (base_value target_value estimated_improvement : ℚ) :
    (solveRun m 0 pProv aProv fn_x x_init base_value target_value
      estimated_improvement).nSteps = 0 ∧
    (solveRun m 0 pProv aProv fn_x x_init base_value target_value
      estimated_improvement).endCalls = [] ∧
    (solveRun m 0 pProv aProv fn_x x_init base_value target_value
      estimated_improvement).x =
      (end_ fn_x (start m (pProv 0) x_init base_value target_value
        estimated_improvement)).1 ∧
    (solveRun m 0 pProv aProv fn_x x_init base_value target_value
      estimated_improvement).x =
      x_init.map (fun v => v + -v * pProv 0) := by
  have haccept :
      (start m (pProv 0) x_init base_value target_value
        estimated_improvement).improvement >
      (start m (pProv 0) x_init base_value target_value
        estimated_improvement).last_improvement := by
    cases m <;> exact sub_one_lt _
  refine ⟨rfl, ?_, ?_, ?_⟩
  · simp [solveRun, solveLoop, end_, haccept]
  · rfl
  · simp only [solveRun, solveLoop, end_, if_pos haccept]
    have hd : (start m (pProv 0) x_init base_value target_value
        estimated_improvement).deltas = x_init.map (fun t => -t * pProv 0) := by
      cases m <;> rfl
    have hx : (start m (pProv 0) x_init base_value target_value
        estimated_improvement).x = x_init := by
      cases m <;> rfl
    rw [hx, hd, zipWith_map_right_self]

/-- Helper for C3: in any run of the bounded loop the final
parameter-provider index advances by exactly the number of executed steps,
and the accept-ratio index by the number of `next_step` evaluations (one
per step, plus one for a final failing check unless the fuel ran out). -/
theorem solveLoop_counts (pProv aProv : ℕ → ℚ) (fn_x : List ℚ → ℚ) :
    ∀ (fuel : ℕ) (s : SolverState) (pIdx aIdx nSteps : ℕ),
      nSteps ≤ (solveLoop pProv aProv fn_x fuel s pIdx aIdx nSteps).nSteps ∧
      (solveLoop pProv aProv fn_x fuel s pIdx aIdx nSteps).pIdx =
        pIdx + ((solveLoop pProv aProv fn_x fuel s pIdx aIdx nSteps).nSteps
          - nSteps) ∧
      ((solveLoop pProv aProv fn_x fuel s pIdx aIdx nSteps).aIdx =
        aIdx + ((solveLoop pProv aProv fn_x fuel s pIdx aIdx nSteps).nSteps
          - nSteps) ∨
       (solveLoop pProv aProv fn_x fuel s pIdx aIdx nSteps).aIdx =
        aIdx + ((solveLoop pProv aProv fn_x fuel s pIdx aIdx nSteps).nSteps
          - nSteps) + 1) ∧
      (solveLoop pProv aProv fn_x fuel s pIdx aIdx nSteps).nSteps - nSteps
        ≤ fuel := by
  intro fuel
  induction fuel with
  | zero =>
      intro s pIdx aIdx nSteps
      simp [solveLoop]
  | succ fuel ih =>
      intro s pIdx aIdx nSteps
      rw [solveLoop]
      split
      · have h := ih (step (pProv pIdx) fn_x s) (pIdx + 1) (aIdx + 1)
          (nSteps + 1)
        omega
      · simp [solveLoop]

/-- Counterexample to C3 as stated: in exponential mode with
`max_iterations = 1`, a parameter provider whose value changes between its
first and second consultation produces a different `solve` result than the
provider held constant at its start-time value, because `step` re-samples
the parameter (`line_search.py` line 175). -/
theorem C3_counterexample :
    solve .exponential 1 (fun i => if i = 0 then 1/2 else 1/4)
      (fun _ => 9/10) (fun _ => 1) [1] 0 (1/2) 1 ≠
    solve .exponential 1 (fun _ => 1/2)
      (fun _ => 9/10) (fun _ => 1) [1] 0 (1/2) 1 := by
  norm_num [solve, solveRun, solveLoop, start, step, next_step, end_, epsilon]

/-- C3 amended: within one `solve` call the parameter provider is
consulted once at `start` plus once per executed `step` (so
`1 + nSteps` times), and the accept-ratio provider once per `next_step`
evaluation (`nSteps` or `nSteps + 1` times) and never at `start`; the
number of steps is bounded by `max_iterations`. -/
theorem C3_provider_consultations (m : Mode) (max_iterations : ℕ)
    (pProv aProv : ℕ → ℚ) (fn_x : List ℚ → ℚ) (x_init : List ℚ)
    (base_value target_value estimated_improvement : ℚ) :
    (solveRun m max_iterations pProv aProv fn_x x_init base_value
      target_value estimated_improvement).pConsults =
      1 + (solveRun m max_iterations pProv aProv fn_x x_init base_value
        target_value estimated_improvement).nSteps ∧
    ((solveRun m max_iterations pProv aProv fn_x x_init base_value
      target_value estimated_improvement).aConsults =
      (solveRun m max_iterations pProv aProv fn_x x_init base_value
        target_value estimated_improvement).nSteps ∨
     (solveRun m max_iterations pProv aProv fn_x x_init base_value
      target_value estimated_improvement).aConsults =
      (solveRun m max_iterations pProv aProv fn_x x_init base_value
        target_value estimated_improvement).nSteps + 1) ∧
    (solveRun m max_iterations pProv aProv fn_x x_init base_value
      target_value estimated_improvement).nSteps ≤ max_iterations := by
  have h := solveLoop_counts pProv aProv fn_x max_iterations
    (start m (pProv 0) x_init base_value target_value estimated_improvement)
    1 0 0
  simp only [solveRun] at *
  omega

/-! ## Claims about experience batching -/

/-- The terminal-inclusion branch of the batching loop is dead code: its
guard requires `terminal[index-1] == 0 ∧ index - last < experience_size`,
which is exactly the condition under which the loop has already
`continue`d. -/
theorem batchLoop_eq_batchLoopNG (size : ℕ) :
    ∀ (l : List ℕ) (index last : ℕ),
      batchLoop size l index last = batchLoopNG size l index last := by
  intro l
  induction l with
  | nil => intro index last; rfl
  | cons t rest ih =>
      intro index last
      rw [batchLoop, batchLoopNG]
      split
      · exact ih (index + 1) last
      · rename_i h
        rw [if_neg (fun hc => h ⟨hc.2.1, hc.2.2.2⟩)]
        show (last, index) :: batchLoop size rest (index + 1) index =
          (last, index) :: batchLoopNG size rest (index + 1) index
        rw [ih (index + 1) index]

/-- Counterexample to C2 as stated: for `terminal = [0,0,1,0,0,0]` and
`experience_size = 4` the loop emits the single batch `[0:3]`, not the two
batches `[0:3]` and `[3:6]`: the trailing stretch `[3:6]` has no terminal
and never reaches the capacity of 4, so the loop ends without emitting
it. -/
theorem C2_counterexample :
    batchBoundaries [0, 0, 1, 0, 0, 0] 4 = [(0, 3)] ∧
    batchBoundaries [0, 0, 1, 0, 0, 0] 4 ≠ [(0, 3), (3, 6)] := by
  constructor <;> decide

/-- C2 amended: for `terminal = [0,0,1,0,0,0]` with `experience_size = 4`
only the batch `[0:3]` is forwarded and `[3:6]` is dropped; the boundaries
`[0:3]`, `[3:6]` arise with `experience_size = 3` (terminal split, then
capacity split). Moreover the greedy terminal-inclusion branch is
unreachable, so a terminal one position past the capacity boundary starts
a new batch instead of joining the closing one (e.g.
`terminal = [0,0,0,1]`, `experience_size = 3` gives `[0:3]`, `[3:4]`). -/
theorem C2_batch_boundaries :
    batchBoundaries [0, 0, 1, 0, 0, 0] 4 = [(0, 3)] ∧
    batchBoundaries [0, 0, 1, 0, 0, 0] 3 = [(0, 3), (3, 6)] ∧
    (∀ (size : ℕ) (terminal : List ℕ) (index last : ℕ),
      batchLoop size terminal index last =
        batchLoopNG size terminal index last) ∧
    batchBoundaries [0, 0, 0, 1] 3 = [(0, 3), (3, 4)] := by
  exact ⟨by decide, by decide, batchLoop_eq_batchLoopNG, by decide⟩

/-- C10: a run of the loop over an all-zero stretch of terminal flags that
cannot reach the capacity boundary emits nothing; in particular an
`experience` call whose terminal array has no nonzero flag and fewer
timesteps than `experience_size` forwards no batch to `model.experience`,
and — since the counters are only overwritten by `model.experience`
returns — leaves the agent's timesteps/episodes/updates counters
unchanged. The first conjunct, instantiated at the loop state reached
right after the last emitted boundary `last` (where `index = last + 1`),
is the general statement that a terminal-free trailing suffix shorter than
`experience_size` is silently dropped. -/
theorem C10_trailing_suffix_dropped :
    (∀ (size : ℕ) (l : List ℕ) (index last : ℕ),
      last < index → (∀ x ∈ l, x = 0) → index + l.length ≤ last + size →
      batchLoop size l index last = []) ∧
    (∀ (size : ℕ) (u : List ℕ) (last : ℕ),
      (∀ x ∈ u, x = 0) → u.length < size →
      batchLoop size u (last + 1) last = []) ∧
    (∀ (size : ℕ) (terminal : List ℕ),
      (∀ x ∈ terminal, x = 0) → terminal.length < size →
      batchBoundaries terminal size = [] ∧
      ∀ model init,
        finalCounters model init (batchBoundaries terminal size) = init) := by
  have main : ∀ (size : ℕ) (l : List ℕ) (index last : ℕ),
      last < index → (∀ x ∈ l, x = 0) → index + l.length ≤ last + size →
      batchLoop size l index last = [] := by
    intro size l
    induction l with
    | nil => intro index last _ _ _; rfl
    | cons t rest ih =>
        intro index last hlast hz hlen
        have ht : t = 0 := hz t (List.mem_cons_self t rest)
        have hlt : index - last < size := by
          simp only [List.length_cons] at hlen
          omega
        rw [batchLoop, if_pos ⟨ht, hlt⟩]
        refine ih (index + 1) last (by omega)
          (fun x hx => hz x (List.mem_cons_of_mem t hx)) ?_
        simp only [List.length_cons] at hlen
        omega
  refine ⟨main, ?_, ?_⟩
  · intro size u last hz hlen
    exact main size u (last + 1) last (by omega) hz (by omega)
  · intro size terminal hz hlen
    have h0 : batchBoundaries terminal size = [] :=
      main size terminal 1 0 (by omega) hz (by omega)
    exact ⟨h0, fun model init => by rw [h0]; rfl⟩

/-- Witness for C10 at a concrete all-zero terminal array shorter than the
capacity. -/
theorem C10_witness :
    batchBoundaries [0, 0, 0] 4 = [] ∧
    finalCounters (fun _ => (9, 9, 9)) (1, 2, 3)
      (batchBoundaries [0, 0, 0] 4) = (1, 2, 3) := by
  have h := C10_trailing_suffix_dropped.2.2 4 [0, 0, 0]
    (by decide) (by decide)
  exact ⟨h.1, h.2 _ _⟩

/-- C8: whenever any parallel-interaction slot's observe buffer is
non-empty, `experience` raises the mid-episode error before processing any
input, and nothing is forwarded to the model. -/
theorem C8_mid_episode_rejected (buffer_indices : List ℕ) (b : ℕ)
    (hb : b ∈ buffer_indices) (hnz : b ≠ 0) (num_instances : ℕ)
    (internals actions : List (String × ℕ)) (terminal : List ℕ)
    (rewardLen experience_size : ℕ) :
    experience buffer_indices num_instances internals actions terminal
      rewardLen experience_size = .error .midEpisode := by
  have hall : buffer_indices.all (fun x => x == 0) = false := by
    rw [List.all_eq_false]
    exact ⟨b, hb, by simpa using hnz⟩
  simp [experience, hall]

/-- Witness for C8 at a concrete non-empty buffer. -/
theorem C8_witness :
    experience [1] 0 [] [] [] 0 0 = .error .midEpisode :=
  C8_mid_episode_rejected [1] 1 (by decide) (by decide) 0 [] [] [] 0 0

/-- If `checkLengths` reports an error, that error is a length mismatch
naming a genuinely offending field. -/
theorem checkLengths_some_offending (num_instances : ℕ)
    (internals actions : List (String × ℕ)) (terminalLen rewardLen : ℕ)
    (e : ExpError)
    (h : checkLengths num_instances internals actions terminalLen rewardLen =
      some e) :
    offending num_instances internals actions terminalLen rewardLen e := by
  unfold checkLengths at h
  split at h
  next nv hfi =>
    cases h
    exact Or.inl ⟨nv, List.mem_of_find?_eq_some hfi, rfl, rfl,
      by simpa using List.find?_some hfi⟩
  next hfi =>
    split at h
    next nv hfa =>
      cases h
      exact Or.inr (Or.inl ⟨nv, List.mem_of_find?_eq_some hfa, rfl, rfl,
        by simpa using List.find?_some hfa⟩)
    next hfa =>
      split at h
      next hterm =>
        cases h
        exact Or.inr (Or.inr (Or.inl ⟨rfl, rfl, hterm⟩))
      next hterm =>
        split at h
        next hrew =>
          cases h
          exact Or.inr (Or.inr (Or.inr ⟨rfl, rfl, hrew⟩))
        next hrew => cases h

/-- If `checkLengths` reports no error, every per-step input matches
`num_instances`. -/
theorem checkLengths_none (num_instances : ℕ)
    (internals actions : List (String × ℕ)) (terminalLen rewardLen : ℕ)
    (h : checkLengths num_instances internals actions terminalLen rewardLen =
      none) :
    (∀ nv ∈ internals, nv.2 = num_instances) ∧
    (∀ nv ∈ actions, nv.2 = num_instances) ∧
    terminalLen = num_instances ∧ rewardLen = num_instances := by
  unfold checkLengths at h
  split at h
  next nv hfi => cases h
  next hfi =>
    split at h
    next nv hfa => cases h
    next hfa =>
      split at h
      next hterm => cases h
      next hterm =>
        split at h
        next hrew => cases h
        next hrew =>
          have hi := List.find?_eq_none.mp hfi
          have ha := List.find?_eq_none.mp hfa
          refine ⟨fun nv hnv => ?_, fun nv hnv => ?_,
            not_ne_iff.mp hterm, not_ne_iff.mp hrew⟩
          · simpa using hi nv hnv
          · simpa using ha nv hnv

/-- C9: if the observe buffers are empty but some per-step array (an
internals entry, an actions entry, `terminal`, or `reward`) has leading
length different from the number of state instances, `experience` fails
with a value error naming an offending field, and no batch is passed to
the model. -/
theorem C9_length_mismatch (buffer_indices : List ℕ)
    (hbuf : ∀ b ∈ buffer_indices, b = 0) (num_instances : ℕ)
    (internals actions : List (String × ℕ)) (terminal : List ℕ)
    (rewardLen experience_size : ℕ)
    (hmismatch : (∃ nv ∈ internals, nv.2 ≠ num_instances) ∨
      (∃ nv ∈ actions, nv.2 ≠ num_instances) ∨
      terminal.length ≠ num_instances ∨ rewardLen ≠ num_instances) :
    ∃ e, experience buffer_indices num_instances internals actions terminal
        rewardLen experience_size = .error e ∧
      offending num_instances internals actions terminal.length rewardLen e := by
  have hall : buffer_indices.all (fun x => x == 0) = true := by
    rw [List.all_eq_true]
    intro b hb
    simpa using hbuf b hb
  cases hc : checkLengths num_instances internals actions terminal.length
      rewardLen with
  | none =>
      exfalso
      obtain ⟨h1, h2, h3, h4⟩ := checkLengths_none _ _ _ _ _ hc
      rcases hmismatch with ⟨nv, hnv, hne⟩ | ⟨nv, hnv, hne⟩ | hne | hne
      · exact hne (h1 nv hnv)
      · exact hne (h2 nv hnv)
      · exact hne h3
      · exact hne h4
  | some e =>
      refine ⟨e, ?_, checkLengths_some_offending _ _ _ _ _ _ hc⟩
      simp [experience, hall, hc]

/-- Witness for C9 at a concrete mismatched internals entry. -/
theorem C9_witness :
    ∃ e, experience [] 2 [("st", 1)] [] [] 0 0 = .error e ∧
      offending 2 [("st", 1)] [] 0 0 e :=
  C9_length_mismatch [] (by simp) 2 [("st", 1)] [] [] 0 0
    (Or.inl ⟨("st", 1), by simp, by decide⟩)

end Tensorforce
